import Mathlib

/-!
Shallow embedding of the PNG transparency checker in
`scripts/check_transparent_icons.py`: chunk-container parsing, scanline
reconstruction (unfiltering) and the color-model dependent transparency
evaluation.  Bytes are modelled as natural numbers; bytes coming from a
real file lie in 0..255.
-/

namespace CheckTransparentIcons

abbrev Bytes := List Nat

/-- PNG_SIGNATURE from the source: the fixed 8-byte magic signature. -/
def PNG_SIGNATURE : Bytes := [137, 80, 78, 71, 13, 10, 26, 10]

/-- Error taxonomy of the decoder.  The first eight constructors correspond
to the ValueError messages raised by the source; `structUnpackError` models
the struct.error escaping from a wrong-sized IHDR unpack, and
`decompressionError` models a zlib.error escaping from decompression. -/
inductive PngError where
  | notPng
  | truncatedChunkHeader
  | truncatedChunkLength
  | missingIHDR
  | unsupportedBitDepth (depth : Nat)
  | unsupportedColorType (color : Nat)
  | unexpectedDecompressedSize
  | unknownFilterType (ft : Nat)
  | structUnpackError
  | decompressionError
  deriving DecidableEq, Repr

/-- The ValueError message texts produced by the source for a given path
(f-strings in the source).  `structUnpackError` and `decompressionError`
carry messages produced by the Python runtime, not by this source, so they
are mapped to `none`. -/
def valueErrorMessage (path : String) : PngError → Option String
  | .notPng => some (path ++ " is not a PNG file")
  | .truncatedChunkHeader => some (path ++ " is truncated (invalid chunk header)")
  | .truncatedChunkLength => some (path ++ " is truncated (invalid chunk length)")
  | .missingIHDR => some (path ++ " is missing IHDR")
  | .unsupportedBitDepth depth => some (path ++ " has unsupported bit depth: " ++ toString depth)
  | .unsupportedColorType color => some (path ++ " has unsupported color type: " ++ toString color)
  | .unexpectedDecompressedSize => some (path ++ " has unexpected decompressed size")
  | .unknownFilterType ft => some (path ++ " has unknown PNG filter type: " ++ toString ft)
  | .structUnpackError => none
  | .decompressionError => none

/-- _paeth from the source: the Paeth predictor over the left, up and
up-left neighbor bytes. -/
def paeth (a b c : Nat) : Nat :=
  let p : Int := (a : Int) + (b : Int) - (c : Int)
  let pa : Nat := (p - (a : Int)).natAbs
  let pb : Nat := (p - (b : Int)).natAbs
  let pc : Nat := (p - (c : Int)).natAbs
  if pa ≤ pb ∧ pa ≤ pc then a
  else if pb ≤ pc then b
  else c

/-- struct.unpack of a big-endian u32 at offset i.  In the source the four
bytes are guaranteed in range by the preceding bounds check, so reading
with default 0 is faithful. -/
def readBE32 (data : Bytes) (i : Nat) : Nat :=
  data.getD i 0 * 16777216 + data.getD (i + 1) 0 * 65536 +
    data.getD (i + 2) 0 * 256 + data.getD (i + 3) 0

/-- The ASCII bytes of the chunk tag "IHDR". -/
def ihdrTag : Bytes := [73, 72, 68, 82]

/-- The ASCII bytes of the chunk tag "tRNS". -/
def trnsTag : Bytes := [116, 82, 78, 83]

/-- The ASCII bytes of the chunk tag "IDAT". -/
def idatTag : Bytes := [73, 68, 65, 84]

/-- The ASCII bytes of the chunk tag "IEND". -/
def iendTag : Bytes := [73, 69, 78, 68]

/-- State accumulated by the chunk-reading loop of the source: the parsed
IHDR fields (width, height, bit depth, color type), the last tRNS payload
and the concatenation of all IDAT payloads. -/
structure ParseState where
  ihdr : Option (Nat × Nat × Nat × Nat)
  trns : Option Bytes
  idat : Bytes
  deriving DecidableEq, Repr

def initState : ParseState := ⟨none, none, []⟩

/-- struct.unpack of the 13-byte IHDR payload: width, height, bit depth,
color type (the three trailing bytes are ignored by the source). -/
def parseIHDR (p : Bytes) : Nat × Nat × Nat × Nat :=
  (readBE32 p 0, readBE32 p 4, p.getD 8 0, p.getD 9 0)

/-- The chunk-reading while-loop of the source, with `i` the byte offset
into `data` and an explicit fuel argument to make the recursion
structural; any fuel with `data.length ≤ i + fuel` gives the loop's exact
behavior (each iteration advances `i` by at least 12). -/
def parseLoop (data : Bytes) : Nat → Nat → ParseState → Except PngError ParseState
  | 0, _, st => .ok st
  | fuel + 1, i, st =>
    if i < data.length then
      if data.length < i + 8 then .error .truncatedChunkHeader
      else
        let len := readBE32 data i
        let chunkType := (data.drop (i + 4)).take 4
        if data.length < i + 8 + len + 4 then .error .truncatedChunkLength
        else
          let chunkData := (data.drop (i + 8)).take len
          let next := i + 8 + len + 4
          if chunkType = ihdrTag then
            if chunkData.length = 13 then
              parseLoop data fuel next ⟨some (parseIHDR chunkData), st.trns, st.idat⟩
            else .error .structUnpackError
          else if chunkType = trnsTag then
            parseLoop data fuel next ⟨st.ihdr, some chunkData, st.idat⟩
          else if chunkType = idatTag then
            parseLoop data fuel next ⟨st.ihdr, st.trns, st.idat ++ chunkData⟩
          else if chunkType = iendTag then .ok st
          else parseLoop data fuel next st
    else .ok st

/-- The chunk-reading loop started at offset `i`, with always-sufficient
fuel. -/
def parseFrom (data : Bytes) (i : Nat) (st : ParseState) : Except PngError ParseState :=
  parseLoop data (data.length + 1) i st

/-- The chunk reader of the source: walk the chunks after the 8-byte
signature. -/
def parseChunks (data : Bytes) : Except PngError ParseState :=
  parseFrom data 8 initState

/-- One reconstructed byte of the current row.  `acc` holds the already
reconstructed bytes of the row (so `acc.length` is the position x being
reconstructed), `prev` the previous reconstructed row and `fx` the
filtered byte. -/
def unfilterByte (ft bpp : Nat) (prev acc : Bytes) (fx : Nat) : Nat :=
  let x := acc.length
  let left := if bpp ≤ x then acc.getD (x - bpp) 0 else 0
  let up := prev.getD x 0
  let upLeft := if bpp ≤ x then prev.getD (x - bpp) 0 else 0
  match ft with
  | 0 => fx
  | 1 => (fx + left) % 256
  | 2 => (fx + up) % 256
  | 3 => (fx + (left + up) / 2) % 256
  | 4 => (fx + paeth left up upLeft) % 256
  | _ + 5 => fx

/-- Left-to-right in-row reconstruction loop of the source (the per-x for
loops; filter type 0 leaves bytes unchanged). -/
def unfilterRowAux (ft bpp : Nat) (prev : Bytes) : Bytes → Bytes → Bytes
  | [], acc => acc
  | fx :: rest, acc => unfilterRowAux ft bpp prev rest (acc ++ [unfilterByte ft bpp prev acc fx])

def unfilterRow (ft bpp : Nat) (prev row : Bytes) : Bytes :=
  unfilterRowAux ft bpp prev row []

/-- The per-row reconstruction loop of the source: `rowsLeft` rows remain,
`y` is the current row index, `raw_index` the cursor into the decompressed
stream `raw`, and `out` the flat raster built so far (the source writes
row y at out[y*row_len:(y+1)*row_len], so `out` is append-only). -/
def reconLoop (raw : Bytes) (row_len bpp : Nat) :
    Nat → Nat → Nat → Bytes → Except PngError Bytes
  | 0, _, _, out => .ok out
  | rowsLeft + 1, y, raw_index, out =>
    let ft := raw.getD raw_index 0
    let row := (raw.drop (raw_index + 1)).take row_len
    let prev := if 0 < y then (out.drop ((y - 1) * row_len)).take row_len
                else List.replicate row_len 0
    if ft ≤ 4 then
      reconLoop raw row_len bpp rowsLeft (y + 1) (raw_index + 1 + row_len)
        (out ++ unfilterRow ft bpp prev row)
    else .error (.unknownFilterType ft)

/-- The scanline reconstructor: unfilter `height` rows of `row_len` bytes
from the decompressed stream `raw`. -/
def reconstruct (raw : Bytes) (height row_len bpp : Nat) : Except PngError Bytes :=
  reconLoop raw row_len bpp height 0 0 []

/-- out[3::4] from the source: every 4th byte starting at offset 3 (the
alpha bytes of an RGBA raster). -/
def alphaBytes : Bytes → Bytes
  | _ :: _ :: _ :: a :: rest => a :: alphaBytes rest
  | _ => []

/-- Lines 81-129 of the source: decompress the IDAT stream, check the
decompressed size, reconstruct the raster and evaluate transparency for
color type 6 (alpha bytes) or 3 (tRNS table entries).  `inflate` is the
external zlib collaborator; `none` models a zlib.error. -/
def decodePixels (inflate : Bytes → Option Bytes) (bpp width height color_type : Nat)
    (trns : Option Bytes) (idat : Bytes) : Except PngError Bool :=
  match inflate idat with
  | none => .error .decompressionError
  | some raw =>
    let row_len := width * bpp
    let expected_len := height * (1 + row_len)
    if raw.length ≠ expected_len then .error .unexpectedDecompressedSize
    else
      match reconstruct raw height row_len bpp with
      | .error e => .error e
      | .ok out =>
        if color_type = 6 then .ok ((alphaBytes out).any (fun a => decide (a < 255)))
        else
          match trns with
          | none => .ok false
          | some t => .ok (t.any (fun a => decide (a < 255)))

/-- Lines 71-129 of the source: dispatch on the color type.  Types 0, 2
and 4 return False before any decompression; types 6 and 3 decode with
bpp 4 and 1 respectively; anything else is an unsupported color type. -/
def afterHeader (inflate : Bytes → Option Bytes) (width height color_type : Nat)
    (trns : Option Bytes) (idat : Bytes) : Except PngError Bool :=
  if color_type = 6 then decodePixels inflate 4 width height color_type trns idat
  else if color_type = 3 then decodePixels inflate 1 width height color_type trns idat
  else if color_type = 0 ∨ color_type = 2 ∨ color_type = 4 then .ok false
  else .error (.unsupportedColorType color_type)

/-- png_has_transparency from the source, with the zlib collaborator
passed explicitly. -/
def png_has_transparency (inflate : Bytes → Option Bytes) (data : Bytes) :
    Except PngError Bool :=
  if PNG_SIGNATURE.isPrefixOf data then
    match parseChunks data with
    | .error e => .error e
    | .ok st =>
      match st.ihdr with
      | none => .error .missingIHDR
      | some (width, height, bit_depth, color_type) =>
        if bit_depth = 8 then afterHeader inflate width height color_type st.trns st.idat
        else .error (.unsupportedBitDepth bit_depth)
  else .error .notPng

/-- One failure entry of main's failures list. -/
inductive AssetFailure where
  | missingFile
  | noTransparentPixels
  | validationError (e : PngError)
  deriving DecidableEq, Repr

/-- One iteration of main's loop over the required icons: `none` content
models a missing file; any decoder error is caught and recorded, so one
asset's failure never aborts the remaining checks. -/
def checkAsset (inflate : Bytes → Option Bytes) (content : Option Bytes) :
    Option AssetFailure :=
  match content with
  | none => some .missingFile
  | some data =>
    match png_has_transparency inflate data with
    | .ok true => none
    | .ok false => some .noTransparentPixels
    | .error e => some (.validationError e)

/-- main's failures list over the required assets. -/
def runChecks (inflate : Bytes → Option Bytes) (assets : List (Option Bytes)) :
    List AssetFailure :=
  assets.filterMap (checkAsset inflate)

/-- main's exit code: 1 when any failure was recorded. -/
def mainExitCode (inflate : Bytes → Option Bytes) (assets : List (Option Bytes)) : Nat :=
  if runChecks inflate assets = [] then 0 else 1

/-- Substring test on character lists (used to state what an error message
does or does not mention). -/
def containsSub : List Char → List Char → Bool
  | [], needle => needle.isEmpty
  | a :: t, needle => needle.isPrefixOf (a :: t) || containsSub t needle

/-- Big-endian 4-byte encoding of a u32 (container-building helper for
concrete test inputs). -/
def be32 (n : Nat) : Bytes :=
  [n / 16777216 % 256, n / 65536 % 256, n / 256 % 256, n % 256]

/-- A serialized chunk: length, tag, payload and a 4-byte CRC (the CRC is
read and discarded by the source, so zeros serve). -/
def mkChunk (tag payload : Bytes) : Bytes :=
  be32 payload.length ++ tag ++ payload ++ [0, 0, 0, 0]

/-- A serialized container: signature, IHDR with the given dimensions, bit
depth and color type, an optional tRNS chunk, one IDAT chunk and IEND. -/
def mkPng (w h depth ct : Nat) (trns : Option Bytes) (idat : Bytes) : Bytes :=
  PNG_SIGNATURE ++ mkChunk ihdrTag (be32 w ++ be32 h ++ [depth, ct, 0, 0, 0]) ++
    (match trns with | none => [] | some t => mkChunk trnsTag t) ++
    mkChunk idatTag idat ++ mkChunk iendTag []

/-- Modelled from the spec, section 4.4: the Paeth predictor `paeth(a, b, c)`
with p = a + b - c, pa = |p - a|, pb = |p - b|, pc = |p - c|, returning a
if pa ≤ pb and pa ≤ pc, else b if pb ≤ pc, else c (ties favor a, then b). -/
def specPaeth (a b c : Nat) : Nat :=
  let p : Int := (a : Int) + (b : Int) - (c : Int)
  let pa : Nat := (p - (a : Int)).natAbs
  let pb : Nat := (p - (b : Int)).natAbs
  let pc : Nat := (p - (c : Int)).natAbs
  if pa ≤ pb ∧ pa ≤ pc then a
  else if pb ≤ pc then b
  else c

/-- Modelled from the spec, section 4.4: the value of one reconstructed
byte given the filter type, the filtered byte `fx` and the neighbor values
`left`, `up` and `upLeft` (each already 0 at the row/raster boundaries):
type 0 leaves the byte unchanged, type 1 adds left, type 2 adds up, type 3
adds floor((left+up)/2), type 4 adds the Paeth predictor, all mod 256. -/
def specByteValue (ft fx left up upLeft : Nat) : Nat :=
  match ft with
  | 0 => fx
  | 1 => (fx + left) % 256
  | 2 => (fx + up) % 256
  | 3 => (fx + (left + up) / 2) % 256
  | 4 => (fx + specPaeth left up upLeft) % 256
  | _ + 5 => fx

/-! Helper lemmas about list indexing used throughout. -/

lemma getD_drop (l : Bytes) (m k : Nat) (d : Nat) :
    (l.drop m).getD k d = l.getD (m + k) d := by
  simp [List.getD_eq_getElem?_getD, List.getElem?_drop]

lemma getD_take (l : Bytes) (n k : Nat) (d : Nat) (h : k < n) :
    (l.take n).getD k d = l.getD k d := by
  simp [List.getD_eq_getElem?_getD, List.getElem?_take_of_lt h]

lemma getD_take_drop (l : Bytes) (m n k : Nat) (d : Nat) (h : k < n) :
    ((l.drop m).take n).getD k d = l.getD (m + k) d := by
  rw [getD_take _ _ _ _ h, getD_drop]

lemma getD_append_left (l r : Bytes) (k : Nat) (d : Nat) (h : k < l.length) :
    (l ++ r).getD k d = l.getD k d := by
  simp [List.getD_eq_getElem?_getD, List.getElem?_append_left h]

lemma getD_append_add (l r : Bytes) (k : Nat) (d : Nat) :
    (l ++ r).getD (l.length + k) d = r.getD k d := by
  simp only [List.getD_eq_getElem?_getD]
  rw [List.getElem?_append_right (by omega)]
  simp

lemma getD_replicate_zero (n k : Nat) :
    (List.replicate n (0 : Nat)).getD k 0 = 0 := by
  simp only [List.getD_eq_getElem?_getD, List.getElem?_replicate]
  split <;> simp

lemma isPrefixOf_self_append (l r : Bytes) : l.isPrefixOf (l ++ r) = true := by
  induction l with
  | nil => simp [List.isPrefixOf]
  | cons a t ih => simp [List.isPrefixOf, ih]

lemma be32_length (n : Nat) : (be32 n).length = 4 := rfl

lemma mkChunk_length (tag payload : Bytes) (htag : tag.length = 4) :
    (mkChunk tag payload).length = 12 + payload.length := by
  simp [mkChunk, be32_length, htag]
  omega

lemma readBE32_drop (data : Bytes) (i : Nat) :
    readBE32 data i = readBE32 (data.drop i) 0 := by
  simp [readBE32, getD_drop]

lemma readBE32_be32 (n : Nat) (tail : Bytes) (h : n < 4294967296) :
    readBE32 (be32 n ++ tail) 0 = n := by
  simp only [readBE32, be32]
  norm_num [List.getD_cons_zero, List.getD_cons_succ]
  omega

/-! Fuel adequacy for the chunk-reading loop: any fuel covering the
remaining bytes gives the same result, since each iteration advances the
offset by at least 12. -/

lemma parseLoop_succ (data : Bytes) :
    ∀ fuel i st, data.length ≤ i + fuel →
      parseLoop data (fuel + 1) i st = parseLoop data fuel i st := by
  intro fuel
  induction fuel with
  | zero =>
    intro i st h
    rw [parseLoop, parseLoop, if_neg (by omega)]
  | succ f ih =>
    intro i st h
    conv_lhs => rw [parseLoop]
    conv_rhs => rw [parseLoop]
    by_cases h1 : i < data.length
    · rw [if_pos h1, if_pos h1]
      by_cases h2 : data.length < i + 8
      · rw [if_pos h2, if_pos h2]
      · rw [if_neg h2, if_neg h2]
        by_cases h3 : data.length < i + 8 + readBE32 data i + 4
        · simp only [if_pos h3]
        · simp only [if_neg h3]
          have hnext : data.length ≤ (i + 8 + readBE32 data i + 4) + f := by omega
          split_ifs <;> first | rfl | exact ih _ _ hnext
    · rw [if_neg h1, if_neg h1]

lemma parseLoop_add (data : Bytes) :
    ∀ k fuel i st, data.length ≤ i + fuel →
      parseLoop data (fuel + k) i st = parseLoop data fuel i st := by
  intro k
  induction k with
  | zero => intro fuel i st _; rfl
  | succ m ih =>
    intro fuel i st h
    have : fuel + (m + 1) = (fuel + m) + 1 := by omega
    rw [this, parseLoop_succ data (fuel + m) i st (by omega), ih fuel i st h]

lemma parseLoop_fuel (data : Bytes) (f₁ f₂ i : Nat) (st : ParseState)
    (h₁ : data.length ≤ i + f₁) (h₂ : data.length ≤ i + f₂) :
    parseLoop data f₁ i st = parseLoop data f₂ i st := by
  rcases Nat.le_total f₁ f₂ with hle | hle
  · rw [show f₂ = f₁ + (f₂ - f₁) from by omega, parseLoop_add data (f₂ - f₁) f₁ i st h₁]
  · rw [show f₁ = f₂ + (f₁ - f₂) from by omega, parseLoop_add data (f₁ - f₂) f₂ i st h₂]

lemma parseLoop_eq_parseFrom (data : Bytes) (fuel i : Nat) (st : ParseState)
    (h : data.length ≤ i + fuel) :
    parseLoop data fuel i st = parseFrom data i st :=
  parseLoop_fuel data fuel (data.length + 1) i st h (by omega)

lemma parseFrom_end (data : Bytes) (i : Nat) (st : ParseState) (h : data.length ≤ i) :
    parseFrom data i st = .ok st := by
  rw [parseFrom, parseLoop, if_neg (by omega)]

/-- Stepping the chunk reader over one serialized chunk sitting at offset
`i` of the data. -/
lemma parseFrom_step (data : Bytes) (i : Nat) (tag payload rest : Bytes) (st : ParseState)
    (hdrop : data.drop i = mkChunk tag payload ++ rest)
    (htag : tag.length = 4) (hp : payload.length < 4294967296) :
    parseFrom data i st =
      if tag = ihdrTag then
        (if payload.length = 13 then
          parseFrom data (i + 8 + payload.length + 4) ⟨some (parseIHDR payload), st.trns, st.idat⟩
         else .error .structUnpackError)
      else if tag = trnsTag then
        parseFrom data (i + 8 + payload.length + 4) ⟨st.ihdr, some payload, st.idat⟩
      else if tag = idatTag then
        parseFrom data (i + 8 + payload.length + 4) ⟨st.ihdr, st.trns, st.idat ++ payload⟩
      else if tag = iendTag then .ok st
      else parseFrom data (i + 8 + payload.length + 4) st := by
  have hdlen : data.length = i + (12 + payload.length + rest.length) := by
    have h1 := congrArg List.length hdrop
    simp only [List.length_drop, List.length_append, mkChunk_length tag payload htag] at h1
    have h2 : i ≤ data.length := by
      by_contra hc
      have : data.length - i = 0 := by omega
      omega
    omega
  have hsuffix : data.drop i =
      be32 payload.length ++ (tag ++ (payload ++ ([0, 0, 0, 0] ++ rest))) := by
    rw [hdrop]; simp [mkChunk, List.append_assoc]
  have hlen : readBE32 data i = payload.length := by
    rw [readBE32_drop, hsuffix, readBE32_be32 _ _ hp]
  have htype : (data.drop (i + 4)).take 4 = tag := by
    have : data.drop (i + 4) = (data.drop i).drop 4 := by
      rw [List.drop_drop]
    rw [this, hsuffix, List.drop_left' (by simp [be32]), List.take_left' htag]
  have hchunkData : (data.drop (i + 8)).take payload.length = payload := by
    have : data.drop (i + 8) = (data.drop i).drop 8 := by
      rw [List.drop_drop]
    have h8 : (be32 payload.length ++ tag).length = 8 := by simp [be32, htag]
    rw [this, hsuffix, show be32 payload.length ++ (tag ++ (payload ++ ([0, 0, 0, 0] ++ rest)))
        = (be32 payload.length ++ tag) ++ (payload ++ ([0, 0, 0, 0] ++ rest)) from by
          simp [List.append_assoc],
      List.drop_left' h8, List.take_left]
  have hfuel : data.length + 1 = data.length + 1 := rfl
  rw [parseFrom, show data.length + 1 = data.length + 1 from rfl, parseLoop]
  rw [if_pos (by omega), if_neg (by omega)]
  simp only [hlen, htype, hchunkData]
  rw [if_neg (by omega)]
  have hrec : ∀ st' : ParseState,
      parseLoop data data.length (i + 8 + payload.length + 4) st' =
        parseFrom data (i + 8 + payload.length + 4) st' := by
    intro st'
    exact parseLoop_eq_parseFrom data data.length (i + 8 + payload.length + 4) st' (by omega)
  split_ifs with hA hB hC hD hE
  · rw [hrec]
  · rfl
  · rw [hrec]
  · rw [hrec]
  · rfl
  · rw [hrec]

/-- After one chunk at offset `i`, the next chunk starts at
`i + 8 + payload.length + 4`. -/
lemma drop_next (data : Bytes) (i : Nat) (tag payload rest : Bytes)
    (hdrop : data.drop i = mkChunk tag payload ++ rest) (htag : tag.length = 4) :
    data.drop (i + 8 + payload.length + 4) = rest := by
  rw [show i + 8 + payload.length + 4 = i + (12 + payload.length) from by omega,
    ← List.drop_drop, hdrop, List.drop_left' (mkChunk_length tag payload htag)]

lemma parseFrom_step_ihdr (data : Bytes) (i : Nat) (payload rest : Bytes) (st : ParseState)
    (hdrop : data.drop i = mkChunk ihdrTag payload ++ rest) (h13 : payload.length = 13) :
    parseFrom data i st =
      parseFrom data (i + 8 + payload.length + 4) ⟨some (parseIHDR payload), st.trns, st.idat⟩ := by
  rw [parseFrom_step data i ihdrTag payload rest st hdrop rfl (by omega), if_pos rfl, if_pos h13]

lemma parseFrom_step_ihdr_bad (data : Bytes) (i : Nat) (payload rest : Bytes) (st : ParseState)
    (hdrop : data.drop i = mkChunk ihdrTag payload ++ rest)
    (hp : payload.length < 4294967296) (h13 : payload.length ≠ 13) :
    parseFrom data i st = .error .structUnpackError := by
  rw [parseFrom_step data i ihdrTag payload rest st hdrop rfl hp, if_pos rfl, if_neg h13]

lemma parseFrom_step_trns (data : Bytes) (i : Nat) (payload rest : Bytes) (st : ParseState)
    (hdrop : data.drop i = mkChunk trnsTag payload ++ rest)
    (hp : payload.length < 4294967296) :
    parseFrom data i st =
      parseFrom data (i + 8 + payload.length + 4) ⟨st.ihdr, some payload, st.idat⟩ := by
  rw [parseFrom_step data i trnsTag payload rest st hdrop rfl hp,
    if_neg (by decide), if_pos rfl]

lemma parseFrom_step_idat (data : Bytes) (i : Nat) (payload rest : Bytes) (st : ParseState)
    (hdrop : data.drop i = mkChunk idatTag payload ++ rest)
    (hp : payload.length < 4294967296) :
    parseFrom data i st =
      parseFrom data (i + 8 + payload.length + 4) ⟨st.ihdr, st.trns, st.idat ++ payload⟩ := by
  rw [parseFrom_step data i idatTag payload rest st hdrop rfl hp,
    if_neg (by decide), if_neg (by decide), if_pos rfl]

lemma parseFrom_step_iend (data : Bytes) (i : Nat) (payload rest : Bytes) (st : ParseState)
    (hdrop : data.drop i = mkChunk iendTag payload ++ rest)
    (hp : payload.length < 4294967296) :
    parseFrom data i st = .ok st := by
  rw [parseFrom_step data i iendTag payload rest st hdrop rfl hp,
    if_neg (by decide), if_neg (by decide), if_neg (by decide), if_pos rfl]

lemma parseIHDR_payload (w h depth ct : Nat) (hw : w < 4294967296) (hh : h < 4294967296) :
    parseIHDR (be32 w ++ be32 h ++ [depth, ct, 0, 0, 0]) = (w, h, depth, ct) := by
  have hassoc : be32 w ++ be32 h ++ [depth, ct, 0, 0, 0]
      = be32 w ++ (be32 h ++ [depth, ct, 0, 0, 0]) := by simp [List.append_assoc]
  have h8 : (be32 w ++ be32 h).length = 8 := by simp [be32]
  unfold parseIHDR
  simp only [Prod.mk.injEq]
  refine ⟨?_, ?_, ?_, ?_⟩
  · rw [hassoc, readBE32_be32 _ _ hw]
  · rw [readBE32_drop, hassoc, List.drop_left' (be32_length w), readBE32_be32 _ _ hh]
  · rw [show (8 : Nat) = (be32 w ++ be32 h).length + 0 from by omega, getD_append_add]
    rfl
  · rw [show (9 : Nat) = (be32 w ++ be32 h).length + 1 from by omega, getD_append_add]
    rfl

/-- Walking the whole synthetic container: the chunk reader returns the
IHDR fields, the tRNS payload (when present) and the IDAT payload. -/
lemma parseChunks_mkPng (w h depth ct : Nat) (trns : Option Bytes) (idat : Bytes)
    (hw : w < 4294967296) (hh : h < 4294967296) (hid : idat.length < 4294967296)
    (htrns : ∀ t, trns = some t → t.length < 4294967296) :
    parseChunks (mkPng w h depth ct trns idat) = .ok ⟨some (w, h, depth, ct), trns, idat⟩ := by
  have hP13 : (be32 w ++ be32 h ++ [depth, ct, 0, 0, 0]).length = 13 := by simp [be32]
  cases trns with
  | none =>
    have hdrop0 : (mkPng w h depth ct none idat).drop 8 =
        mkChunk ihdrTag (be32 w ++ be32 h ++ [depth, ct, 0, 0, 0]) ++
          (mkChunk idatTag idat ++ mkChunk iendTag []) := by
      simp only [mkPng, List.append_assoc, List.append_nil]
      rw [List.drop_left' (show PNG_SIGNATURE.length = 8 from rfl)]
    have hdrop1 := drop_next _ _ _ _ _ hdrop0 rfl
    rw [hP13] at hdrop1
    have hdrop2 := drop_next _ _ _ _ _ hdrop1 rfl
    rw [parseChunks, parseFrom_step_ihdr _ _ _ _ _ hdrop0 hP13, hP13,
      parseIHDR_payload w h depth ct hw hh,
      parseFrom_step_idat _ _ _ _ _ hdrop1 hid,
      parseFrom_step_iend _ _ _ _ _ hdrop2 (by simp)]
    rfl
  | some t =>
    have ht : t.length < 4294967296 := htrns t rfl
    have hdrop0 : (mkPng w h depth ct (some t) idat).drop 8 =
        mkChunk ihdrTag (be32 w ++ be32 h ++ [depth, ct, 0, 0, 0]) ++
          (mkChunk trnsTag t ++ (mkChunk idatTag idat ++ mkChunk iendTag [])) := by
      simp only [mkPng, List.append_assoc]
      rw [List.drop_left' (show PNG_SIGNATURE.length = 8 from rfl)]
    have hdrop1 := drop_next _ _ _ _ _ hdrop0 rfl
    rw [hP13] at hdrop1
    have hdrop2 := drop_next _ _ _ _ _ hdrop1 rfl
    have hdrop3 := drop_next _ _ _ _ _ hdrop2 rfl
    rw [parseChunks, parseFrom_step_ihdr _ _ _ _ _ hdrop0 hP13, hP13,
      parseIHDR_payload w h depth ct hw hh,
      parseFrom_step_trns _ _ _ _ _ hdrop1 ht,
      parseFrom_step_idat _ _ _ _ _ hdrop2 hid,
      parseFrom_step_iend _ _ _ _ _ hdrop3 (by simp)]
    rfl

/-- Decoding a synthetic container reduces to the color-type dispatch once
the bit depth is checked. -/
lemma png_mkPng (inflate : Bytes → Option Bytes) (w h depth ct : Nat)
    (trns : Option Bytes) (idat : Bytes)
    (hw : w < 4294967296) (hh : h < 4294967296) (hid : idat.length < 4294967296)
    (htrns : ∀ t, trns = some t → t.length < 4294967296) :
    png_has_transparency inflate (mkPng w h depth ct trns idat) =
      if depth = 8 then afterHeader inflate w h ct trns idat
      else .error (.unsupportedBitDepth depth) := by
  have hsig : PNG_SIGNATURE.isPrefixOf (mkPng w h depth ct trns idat) = true := by
    simp only [mkPng, List.append_assoc]
    exact isPrefixOf_self_append _ _
  rw [png_has_transparency, if_pos hsig,
    parseChunks_mkPng w h depth ct trns idat hw hh hid htrns]

/-! Characterization of the in-row reconstruction loop. -/

lemma unfilterByte_spec (ft bpp : Nat) (prev acc : Bytes) (fx : Nat) :
    unfilterByte ft bpp prev acc fx =
      specByteValue ft fx (if bpp ≤ acc.length then acc.getD (acc.length - bpp) 0 else 0)
        (prev.getD acc.length 0)
        (if bpp ≤ acc.length then prev.getD (acc.length - bpp) 0 else 0) := by
  rcases ft with _ | _ | _ | _ | _ | ft <;> rfl

lemma unfilterRowAux_length (ft bpp : Nat) (prev : Bytes) :
    ∀ (fs acc : Bytes), (unfilterRowAux ft bpp prev fs acc).length = acc.length + fs.length := by
  intro fs
  induction fs with
  | nil => intro acc; simp [unfilterRowAux]
  | cons fx rest ih =>
    intro acc
    rw [unfilterRowAux, ih]
    simp
    omega

lemma unfilterRowAux_getD_lt (ft bpp : Nat) (prev : Bytes) :
    ∀ (fs acc : Bytes) (k d : Nat), k < acc.length →
      (unfilterRowAux ft bpp prev fs acc).getD k d = acc.getD k d := by
  intro fs
  induction fs with
  | nil => intro acc k d _; rfl
  | cons fx rest ih =>
    intro acc k d hk
    rw [unfilterRowAux, ih _ _ _ (by simp; omega), getD_append_left _ _ _ _ hk]

lemma unfilterRowAux_getD_new (ft bpp : Nat) (prev : Bytes) (hbpp : 0 < bpp) :
    ∀ (fs acc : Bytes) (j : Nat), j < fs.length →
      (unfilterRowAux ft bpp prev fs acc).getD (acc.length + j) 0 =
        specByteValue ft (fs.getD j 0)
          (if bpp ≤ acc.length + j then
            (unfilterRowAux ft bpp prev fs acc).getD (acc.length + j - bpp) 0 else 0)
          (prev.getD (acc.length + j) 0)
          (if bpp ≤ acc.length + j then prev.getD (acc.length + j - bpp) 0 else 0) := by
  intro fs
  induction fs with
  | nil => intro acc j hj; simp at hj
  | cons fx rest ih =>
    intro acc j hj
    rw [unfilterRowAux]
    cases j with
    | zero =>
      simp only [Nat.add_zero, List.getD_cons_zero]
      have hlt : acc.length < (acc ++ [unfilterByte ft bpp prev acc fx]).length := by simp
      rw [unfilterRowAux_getD_lt ft bpp prev rest _ _ _ hlt]
      have hA : (acc ++ [unfilterByte ft bpp prev acc fx]).getD acc.length 0
          = unfilterByte ft bpp prev acc fx := by
        simpa using getD_append_add acc [unfilterByte ft bpp prev acc fx] 0 0
      rw [hA, unfilterByte_spec]
      by_cases hb : bpp ≤ acc.length
      · simp only [if_pos hb]
        have hsub : acc.length - bpp < acc.length := by omega
        rw [unfilterRowAux_getD_lt ft bpp prev rest _ _ _ (by simp; omega),
          getD_append_left _ _ _ _ hsub]
      · simp only [if_neg hb]
    | succ jj =>
      have hjj : jj < rest.length := by simpa using hj
      have hAlen : (acc ++ [unfilterByte ft bpp prev acc fx]).length = acc.length + 1 := by
        simp
      have hih := ih (acc ++ [unfilterByte ft bpp prev acc fx]) jj hjj
      rw [hAlen] at hih
      rw [List.getD_cons_succ, show acc.length + (jj + 1) = acc.length + 1 + jj from by omega]
      exact hih

lemma unfilterRow_length (ft bpp : Nat) (prev row : Bytes) :
    (unfilterRow ft bpp prev row).length = row.length := by
  simpa [unfilterRow] using unfilterRowAux_length ft bpp prev row []

lemma unfilterRow_getD (ft bpp : Nat) (prev row : Bytes) (hbpp : 0 < bpp)
    (j : Nat) (hj : j < row.length) :
    (unfilterRow ft bpp prev row).getD j 0 =
      specByteValue ft (row.getD j 0)
        (if bpp ≤ j then (unfilterRow ft bpp prev row).getD (j - bpp) 0 else 0)
        (prev.getD j 0)
        (if bpp ≤ j then prev.getD (j - bpp) 0 else 0) := by
  simpa [unfilterRow] using unfilterRowAux_getD_new ft bpp prev hbpp row [] j hj

/-! Characterization of the per-row reconstruction loop: on a stream with
in-range filter bytes and the exact expected length it succeeds, and every
raster byte is the spec's inverse-filter value of its neighbors. -/

lemma reconLoop_ok (raw : Bytes) (row_len bpp : Nat) (hbpp : 0 < bpp) :
    ∀ (k y : Nat) (out : Bytes),
      out.length = y * row_len →
      (y + k) * (1 + row_len) ≤ raw.length →
      (∀ j, y ≤ j → j < y + k → raw.getD (j * (1 + row_len)) 0 ≤ 4) →
      ∃ res, reconLoop raw row_len bpp k y (y * (1 + row_len)) out = .ok res ∧
        res.length = (y + k) * row_len ∧
        (∀ m d, m < out.length → res.getD m d = out.getD m d) ∧
        (∀ j x, y ≤ j → j < y + k → x < row_len →
          res.getD (j * row_len + x) 0 =
            specByteValue (raw.getD (j * (1 + row_len)) 0)
              (raw.getD (j * (1 + row_len) + 1 + x) 0)
              (if bpp ≤ x then res.getD (j * row_len + (x - bpp)) 0 else 0)
              (if j = 0 then 0 else res.getD ((j - 1) * row_len + x) 0)
              (if bpp ≤ x then
                (if j = 0 then 0 else res.getD ((j - 1) * row_len + (x - bpp)) 0) else 0)) := by
  intro k
  induction k with
  | zero =>
    intro y out hout _ _
    exact ⟨out, rfl, by simpa using hout, fun m d _ => rfl, fun j x hyj hjk _ => by omega⟩
  | succ kk ih =>
    intro y out hout hraw hft
    have hfty : raw.getD (y * (1 + row_len)) 0 ≤ 4 := hft y le_rfl (by omega)
    have hsucc : (y + 1) * (1 + row_len) = y * (1 + row_len) + (1 + row_len) :=
      Nat.succ_mul y (1 + row_len)
    have hy1 : (y + 1) * (1 + row_len) ≤ raw.length :=
      le_trans (Nat.mul_le_mul_right (1 + row_len) (by omega)) hraw
    rw [hsucc] at hy1
    have hrowfull : ((raw.drop (y * (1 + row_len) + 1)).take row_len).length = row_len := by
      rw [List.length_take, List.length_drop]
      omega
    have hout2 : (out ++ unfilterRow (raw.getD (y * (1 + row_len)) 0) bpp
        (if 0 < y then (out.drop ((y - 1) * row_len)).take row_len
         else List.replicate row_len 0)
        ((raw.drop (y * (1 + row_len) + 1)).take row_len)).length = (y + 1) * row_len := by
      rw [List.length_append, unfilterRow_length, hrowfull, hout, Nat.succ_mul]
    obtain ⟨res, hres, hreslen, hstab, hchar⟩ :=
      ih (y + 1) _ hout2
        (by rw [show y + 1 + kk = y + (kk + 1) from by omega]; exact hraw)
        (fun j h1 h2 => hft j (by omega) (by omega))
    refine ⟨res, ?_, ?_, ?_, ?_⟩
    · simp only [reconLoop]
      rw [if_pos hfty, show y * (1 + row_len) + 1 + row_len = (y + 1) * (1 + row_len) from by
        rw [hsucc]; omega]
      exact hres
    · rw [show y + (kk + 1) = y + 1 + kk from by omega]
      exact hreslen
    · intro m d hm
      have hm2 : m < (out ++ unfilterRow (raw.getD (y * (1 + row_len)) 0) bpp
          (if 0 < y then (out.drop ((y - 1) * row_len)).take row_len
           else List.replicate row_len 0)
          ((raw.drop (y * (1 + row_len) + 1)).take row_len)).length := by
        rw [List.length_append]; omega
      rw [hstab m d hm2, getD_append_left _ _ _ _ hm]
    · intro j x hyj hjk hx
      rcases Nat.lt_or_ge y j with hylt | hyge
      · exact hchar j x (by omega) (by omega) hx
      · have heq : j = y := by omega
        subst heq
        have hchain : ∀ z, z < row_len →
            res.getD (j * row_len + z) 0 =
              (unfilterRow (raw.getD (j * (1 + row_len)) 0) bpp
                (if 0 < j then (out.drop ((j - 1) * row_len)).take row_len
                 else List.replicate row_len 0)
                ((raw.drop (j * (1 + row_len) + 1)).take row_len)).getD z 0 := by
          intro z hz
          have h1 : j * row_len + z < (out ++ unfilterRow (raw.getD (j * (1 + row_len)) 0) bpp
              (if 0 < j then (out.drop ((j - 1) * row_len)).take row_len
               else List.replicate row_len 0)
              ((raw.drop (j * (1 + row_len) + 1)).take row_len)).length := by
            rw [hout2, Nat.succ_mul]; omega
          rw [hstab _ _ h1, show j * row_len + z = out.length + z from by rw [hout],
            getD_append_add]
        have hxrow : x < ((raw.drop (j * (1 + row_len) + 1)).take row_len).length := by
          rw [hrowfull]; exact hx
        have hmain := unfilterRow_getD (raw.getD (j * (1 + row_len)) 0) bpp
          (if 0 < j then (out.drop ((j - 1) * row_len)).take row_len
           else List.replicate row_len 0)
          ((raw.drop (j * (1 + row_len) + 1)).take row_len) hbpp x hxrow
        rw [hchain x hx, hmain,
          getD_take_drop raw (j * (1 + row_len) + 1) row_len x 0 hx]
        cases j with
        | zero =>
          rw [if_neg (show ¬ (0 : Nat) < 0 from by omega)] at hchain ⊢
          rw [getD_replicate_zero row_len x]
          have e0 : ∀ a b : Nat, (if (0 : Nat) = 0 then a else b) = a := fun a b => if_pos rfl
          rw [e0, e0]
          by_cases hbx : bpp ≤ x
          · simp only [if_pos hbx]
            rw [getD_replicate_zero row_len (x - bpp), hchain (x - bpp) (by omega)]
          · simp only [if_neg hbx]
        | succ z =>
          rw [if_pos (Nat.succ_pos z)] at hchain ⊢
          simp only [Nat.add_sub_cancel] at hchain ⊢
          have hprev : ∀ w : Nat, w < row_len →
              ((out.drop (z * row_len)).take row_len).getD w 0 =
                out.getD (z * row_len + w) 0 :=
            fun w hw => getD_take_drop out (z * row_len) row_len w 0 hw
          have houtres : ∀ w : Nat, w < row_len →
              out.getD (z * row_len + w) 0 = res.getD (z * row_len + w) 0 := by
            intro w hw
            have hlt1 : z * row_len + w < out.length := by
              rw [hout, Nat.succ_mul]; omega
            have hlt2 : z * row_len + w < (out ++ unfilterRow
                (raw.getD ((z + 1) * (1 + row_len)) 0) bpp
                (if 0 < z + 1 then (out.drop ((z + 1 - 1) * row_len)).take row_len
                 else List.replicate row_len 0)
                ((raw.drop ((z + 1) * (1 + row_len) + 1)).take row_len)).length := by
              rw [List.length_append]; omega
            rw [hstab _ _ hlt2, getD_append_left _ _ _ _ hlt1]
          have ez : ∀ a b : Nat, (if z + 1 = 0 then a else b) = b :=
            fun a b => if_neg (Nat.succ_ne_zero z)
          rw [ez, ez, hprev x hx, houtres x hx]
          by_cases hbx : bpp ≤ x
          · simp only [if_pos hbx]
            rw [hchain (x - bpp) (by omega), hprev (x - bpp) (by omega),
              houtres (x - bpp) (by omega)]
          · simp only [if_neg hbx]

lemma reconstruct_ok (raw : Bytes) (height row_len bpp : Nat) (hbpp : 0 < bpp)
    (hlen : height * (1 + row_len) ≤ raw.length)
    (hft : ∀ y, y < height → raw.getD (y * (1 + row_len)) 0 ≤ 4) :
    ∃ out, reconstruct raw height row_len bpp = .ok out ∧
      out.length = height * row_len ∧
      ∀ y x, y < height → x < row_len →
        out.getD (y * row_len + x) 0 =
          specByteValue (raw.getD (y * (1 + row_len)) 0)
            (raw.getD (y * (1 + row_len) + 1 + x) 0)
            (if bpp ≤ x then out.getD (y * row_len + (x - bpp)) 0 else 0)
            (if y = 0 then 0 else out.getD ((y - 1) * row_len + x) 0)
            (if bpp ≤ x then (if y = 0 then 0 else out.getD ((y - 1) * row_len + (x - bpp)) 0)
             else 0) := by
  obtain ⟨res, h1, h2, _, h4⟩ := reconLoop_ok raw row_len bpp hbpp height 0 []
    (by simp) (by simpa using hlen) (fun j _ hj => hft j (by omega))
  rw [Nat.zero_mul] at h1
  exact ⟨res, h1, by simpa using h2, fun y x hy hx => h4 y x (by omega) (by omega) hx⟩

lemma reconLoop_error (raw : Bytes) (row_len bpp : Nat) :
    ∀ (k y : Nat) (out : Bytes) (j : Nat),
      y ≤ j → j < y + k →
      (∀ j2, y ≤ j2 → j2 < j → raw.getD (j2 * (1 + row_len)) 0 ≤ 4) →
      4 < raw.getD (j * (1 + row_len)) 0 →
      reconLoop raw row_len bpp k y (y * (1 + row_len)) out =
        .error (.unknownFilterType (raw.getD (j * (1 + row_len)) 0)) := by
  intro k
  induction k with
  | zero => intro y out j h1 h2 _ _; omega
  | succ kk ih =>
    intro y out j h1 h2 hgood hbad
    simp only [reconLoop]
    rcases Nat.eq_or_lt_of_le h1 with heq | hlt
    · subst heq
      rw [if_neg (by omega)]
    · rw [if_pos (hgood y le_rfl hlt),
        show y * (1 + row_len) + 1 + row_len = (y + 1) * (1 + row_len) from by
          rw [Nat.succ_mul]; omega]
      exact ih (y + 1) _ j hlt (by omega) (fun j2 ha hb => hgood j2 (by omega) hb) hbad

lemma reconstruct_error (raw : Bytes) (height row_len bpp j : Nat)
    (hj : j < height)
    (hgood : ∀ j2, j2 < j → raw.getD (j2 * (1 + row_len)) 0 ≤ 4)
    (hbad : 4 < raw.getD (j * (1 + row_len)) 0) :
    reconstruct raw height row_len bpp =
      .error (.unknownFilterType (raw.getD (j * (1 + row_len)) 0)) := by
  have h := reconLoop_error raw row_len bpp height 0 [] j (by omega) (by omega)
    (fun j2 _ hlt => hgood j2 hlt) hbad
  rw [Nat.zero_mul] at h
  exact h

/-! The alpha extraction out[3::4] picks exactly the bytes at indices
4k + 3. -/

lemma alphaBytes_any_bounded (p : Nat → Bool) :
    ∀ (n : Nat) (out : Bytes), out.length ≤ n →
      ((alphaBytes out).any p = true ↔
        ∃ k, 4 * k + 3 < out.length ∧ p (out.getD (4 * k + 3) 0) = true) := by
  intro n
  induction n with
  | zero =>
    intro out hlen
    rcases out with _ | ⟨a, t⟩
    · simp only [alphaBytes, List.any_nil]
      constructor
      · intro h; cases h
      · rintro ⟨k, hk, _⟩; simp at hk
    · simp at hlen
  | succ n ihn =>
    intro out hlen
    rcases out with _ | ⟨a, _ | ⟨b, _ | ⟨c, _ | ⟨d, rest⟩⟩⟩⟩
    · simp only [alphaBytes, List.any_nil]
      constructor
      · intro h; cases h
      · rintro ⟨k, hk, _⟩; simp at hk
    · simp only [alphaBytes, List.any_nil]
      constructor
      · intro h; cases h
      · rintro ⟨k, hk, _⟩
        simp only [List.length_cons, List.length_nil] at hk
        omega
    · simp only [alphaBytes, List.any_nil]
      constructor
      · intro h; cases h
      · rintro ⟨k, hk, _⟩
        simp only [List.length_cons, List.length_nil] at hk
        omega
    · simp only [alphaBytes, List.any_nil]
      constructor
      · intro h; cases h
      · rintro ⟨k, hk, _⟩
        simp only [List.length_cons, List.length_nil] at hk
        omega
    · have ihr := ihn rest (by simp at hlen; omega)
      have hcons : ∀ k : Nat, (a :: b :: c :: d :: rest).getD (4 * (k + 1) + 3) 0 =
          rest.getD (4 * k + 3) 0 := by
        intro k
        rw [show 4 * (k + 1) + 3 = 4 * k + 3 + 1 + 1 + 1 + 1 from by omega]
        simp only [List.getD_cons_succ]
      simp only [alphaBytes, List.any_cons, Bool.or_eq_true]
      constructor
      · rintro (hd | hrest)
        · exact ⟨0, by simp, by simpa using hd⟩
        · obtain ⟨k, hk, hp⟩ := ihr.mp hrest
          refine ⟨k + 1, by simp; omega, ?_⟩
          rw [hcons k]
          exact hp
      · rintro ⟨k, hk, hp⟩
        cases k with
        | zero => exact Or.inl (by simpa using hp)
        | succ kk =>
          refine Or.inr (ihr.mpr ⟨kk, by simp at hk; omega, ?_⟩)
          rw [← hcons kk]
          exact hp

lemma alphaBytes_any_iff (p : Nat → Bool) (out : Bytes) :
    (alphaBytes out).any p = true ↔
      ∃ k, 4 * k + 3 < out.length ∧ p (out.getD (4 * k + 3) 0) = true :=
  alphaBytes_any_bounded p out.length out le_rfl

instance {ε α : Type} [DecidableEq ε] [DecidableEq α] : DecidableEq (Except ε α) :=
  fun a b =>
    match a, b with
    | .ok x, .ok y =>
      if h : x = y then isTrue (by rw [h]) else isFalse (fun hc => h (Except.ok.inj hc))
    | .error x, .error y =>
      if h : x = y then isTrue (by rw [h]) else isFalse (fun hc => h (Except.error.inj hc))
    | .ok _, .error _ => isFalse (fun hc => Except.noConfusion hc)
    | .error _, .ok _ => isFalse (fun hc => Except.noConfusion hc)

lemma decodePixels_size_mismatch (inflate : Bytes → Option Bytes)
    (bpp width height color_type : Nat) (trns : Option Bytes) (idat raw : Bytes)
    (hinf : inflate idat = some raw)
    (hmis : raw.length ≠ height * (1 + width * bpp)) :
    decodePixels inflate bpp width height color_type trns idat =
      .error .unexpectedDecompressedSize := by
  rw [decodePixels.eq_def, hinf]
  dsimp only
  rw [if_pos hmis]

lemma decodePixels_run (inflate : Bytes → Option Bytes)
    (bpp width height color_type : Nat) (trns : Option Bytes) (idat raw out : Bytes)
    (hinf : inflate idat = some raw)
    (hsz : raw.length = height * (1 + width * bpp))
    (hrec : reconstruct raw height (width * bpp) bpp = .ok out) :
    decodePixels inflate bpp width height color_type trns idat =
      if color_type = 6 then .ok ((alphaBytes out).any (fun a => decide (a < 255)))
      else
        match trns with
        | none => .ok false
        | some t => .ok (t.any (fun a => decide (a < 255))) := by
  rw [decodePixels.eq_def, hinf]
  dsimp only
  rw [if_neg (by omega), hrec]

/-- Claim C1: for every decompressed stream of exactly height*(1+row_len)
bytes with all filter-type bytes in 0..4 (and positive bytes-per-pixel),
the scanline reconstructor succeeds and produces each byte by the spec's
five-variant inverse filter — type 0 unchanged, type 1 adds the
reconstructed byte at x-bpp mod 256, type 2 adds prev[x], type 3 adds
floor((left+prev[x])/2), type 4 adds paeth(left, prev[x], up_left) — with
the spec's Paeth predictor and its a-then-b tie-break (`specByteValue` and
`specPaeth` are written from the spec's words). -/
theorem claim_C1_inverse_filter (raw : Bytes) (height row_len bpp : Nat) (hbpp : 0 < bpp)
    (hlen : raw.length = height * (1 + row_len))
    (hft : ∀ y, y < height → raw.getD (y * (1 + row_len)) 0 ≤ 4) :
    ∃ out, reconstruct raw height row_len bpp = .ok out ∧
      out.length = height * row_len ∧
      ∀ y x, y < height → x < row_len →
        out.getD (y * row_len + x) 0 =
          specByteValue (raw.getD (y * (1 + row_len)) 0)
            (raw.getD (y * (1 + row_len) + 1 + x) 0)
            (if bpp ≤ x then out.getD (y * row_len + (x - bpp)) 0 else 0)
            (if y = 0 then 0 else out.getD ((y - 1) * row_len + x) 0)
            (if bpp ≤ x then (if y = 0 then 0 else out.getD ((y - 1) * row_len + (x - bpp)) 0)
             else 0) :=
  reconstruct_ok raw height row_len bpp hbpp (by omega) hft

/-- Witness for C1 at a concrete Paeth-filtered stream. -/
theorem claim_C1_inverse_filter_witness :
    ∃ out, reconstruct [4, 7, 7] 1 2 1 = .ok out ∧
      out.length = 1 * 2 ∧
      ∀ y x, y < 1 → x < 2 →
        out.getD (y * 2 + x) 0 =
          specByteValue (List.getD [4, 7, 7] (y * (1 + 2)) 0)
            (List.getD [4, 7, 7] (y * (1 + 2) + 1 + x) 0)
            (if 1 ≤ x then out.getD (y * 2 + (x - 1)) 0 else 0)
            (if y = 0 then 0 else out.getD ((y - 1) * 2 + x) 0)
            (if 1 ≤ x then (if y = 0 then 0 else out.getD ((y - 1) * 2 + (x - 1)) 0)
             else 0) :=
  claim_C1_inverse_filter [4, 7, 7] 1 2 1 (by omega) (by decide) (by decide)

/-- Claim C4: every neighbor reference outside the available data is
treated as the byte 0 and reconstruction succeeds rather than failing on
an out-of-range access: for row y = 0 the up and up-left references are 0
(the virtual all-zero previous row), and for byte positions x < bpp the
left and up-left references are 0. -/
theorem claim_C4_boundary_zero (raw : Bytes) (height row_len bpp : Nat)
    (hbpp : 0 < bpp) (hh : 0 < height)
    (hlen : raw.length = height * (1 + row_len))
    (hft : ∀ y, y < height → raw.getD (y * (1 + row_len)) 0 ≤ 4) :
    ∃ out, reconstruct raw height row_len bpp = .ok out ∧
      (∀ x, x < row_len →
        out.getD x 0 =
          specByteValue (raw.getD 0 0) (raw.getD (1 + x) 0)
            (if bpp ≤ x then out.getD (x - bpp) 0 else 0) 0 0) ∧
      (∀ y x, y < height → x < row_len → x < bpp →
        out.getD (y * row_len + x) 0 =
          specByteValue (raw.getD (y * (1 + row_len)) 0)
            (raw.getD (y * (1 + row_len) + 1 + x) 0)
            0 (if y = 0 then 0 else out.getD ((y - 1) * row_len + x) 0) 0) := by
  obtain ⟨out, h1, _, h3⟩ := reconstruct_ok raw height row_len bpp hbpp (by omega) hft
  refine ⟨out, h1, ?_, ?_⟩
  · intro x hx
    have h := h3 0 x hh hx
    simpa using h
  · intro y x hy hx hxb
    have h := h3 y x hy hx
    have hnb : ¬ bpp ≤ x := by omega
    rw [if_neg hnb, if_neg hnb] at h
    exact h

/-- Witness for C4: a first row under the Up filter reconstructs against
the virtual zero row. -/
theorem claim_C4_boundary_zero_witness :
    ∃ out, reconstruct [2, 5, 6] 1 2 1 = .ok out ∧
      (∀ x, x < 2 →
        out.getD x 0 =
          specByteValue (List.getD [2, 5, 6] 0 0) (List.getD [2, 5, 6] (1 + x) 0)
            (if 1 ≤ x then out.getD (x - 1) 0 else 0) 0 0) ∧
      (∀ y x, y < 1 → x < 2 → x < 1 →
        out.getD (y * 2 + x) 0 =
          specByteValue (List.getD [2, 5, 6] (y * (1 + 2)) 0)
            (List.getD [2, 5, 6] (y * (1 + 2) + 1 + x) 0)
            0 (if y = 0 then 0 else out.getD ((y - 1) * 2 + x) 0) 0) :=
  claim_C4_boundary_zero [2, 5, 6] 1 2 1 (by omega) (by omega) (by decide) (by decide)

/-- Claim C6: a row whose leading filter-type byte is outside 0..4 (the
first such row) makes reconstruction fail with the unknown-filter-type
error, and one asset's failure never stops the remaining assets: main's
failures list over a list of assets splits pointwise. -/
theorem claim_C6_unknown_filter (raw : Bytes) (height row_len bpp j : Nat)
    (hj : j < height)
    (hgood : ∀ j2, j2 < j → raw.getD (j2 * (1 + row_len)) 0 ≤ 4)
    (hbad : 4 < raw.getD (j * (1 + row_len)) 0) :
    reconstruct raw height row_len bpp =
      .error (.unknownFilterType (raw.getD (j * (1 + row_len)) 0)) ∧
    ∀ (inflate : Bytes → Option Bytes) (a : Option Bytes) (assets : List (Option Bytes)),
      runChecks inflate (a :: assets) =
        (checkAsset inflate a).toList ++ runChecks inflate assets := by
  refine ⟨reconstruct_error raw height row_len bpp j hj hgood hbad, ?_⟩
  intro inflate a assets
  cases h : checkAsset inflate a <;>
    simp [runChecks, List.filterMap_cons, h]

/-- Witness for C6 at filter-type byte 5 on the first row. -/
theorem claim_C6_unknown_filter_witness :
    reconstruct [5, 9, 9, 9, 255] 1 4 4 = .error (.unknownFilterType 5) ∧
    runChecks (fun _ => none) (none :: [none]) =
      (checkAsset (fun _ => none) none).toList ++ runChecks (fun _ => none) [none] := by
  have h := claim_C6_unknown_filter [5, 9, 9, 9, 255] 1 4 4 0 (by omega)
    (fun j2 hlt => by omega) (by decide)
  exact ⟨h.1, h.2 (fun _ => none) none [none]⟩

/-- Claim C2: on a direct-alpha (color type 6) asset whose stream
reconstructs successfully, png_has_transparency returns true iff some
alpha byte — every 4th raster byte at offset 3 — is less than 255. -/
theorem claim_C2_direct_alpha (w h : Nat) (idat raw : Bytes)
    (hw : w < 4294967296) (hh : h < 4294967296) (hid : idat.length < 4294967296)
    (hlen : raw.length = h * (1 + w * 4))
    (hft : ∀ y, y < h → raw.getD (y * (1 + w * 4)) 0 ≤ 4) :
    ∃ out, reconstruct raw h (w * 4) 4 = .ok out ∧
      png_has_transparency (fun _ => some raw) (mkPng w h 8 6 none idat) =
        .ok ((alphaBytes out).any (fun a => decide (a < 255))) ∧
      ((alphaBytes out).any (fun a => decide (a < 255)) = true ↔
        ∃ k, 4 * k + 3 < out.length ∧ out.getD (4 * k + 3) 0 < 255) := by
  obtain ⟨out, hrec, _, _⟩ := reconstruct_ok raw h (w * 4) 4 (by omega) (by omega) hft
  refine ⟨out, hrec, ?_, ?_⟩
  · rw [png_mkPng _ w h 8 6 none idat hw hh hid (fun t ht => by cases ht), if_pos rfl,
      afterHeader, if_pos rfl,
      decodePixels_run _ 4 w h 6 none idat raw out rfl hlen hrec, if_pos rfl]
  · have hiff := alphaBytes_any_iff (fun a => decide (a < 255)) out
    simpa using hiff

/-- Witness for C2: 1x1 direct-alpha pixels with alpha 254 and 255. -/
theorem claim_C2_direct_alpha_witness :
    png_has_transparency (fun _ => some [0, 9, 9, 9, 254]) (mkPng 1 1 8 6 none []) =
      .ok true ∧
    png_has_transparency (fun _ => some [0, 9, 9, 9, 255]) (mkPng 1 1 8 6 none []) =
      .ok false := by
  constructor
  · obtain ⟨out, hrec, hpng, _⟩ := claim_C2_direct_alpha 1 1 [] [0, 9, 9, 9, 254]
      (by omega) (by omega) (by decide) (by decide) (by decide)
    have hout : out = [9, 9, 9, 254] :=
      Except.ok.inj ((rfl : reconstruct [0, 9, 9, 9, 254] 1 (1 * 4) 4 =
        .ok [9, 9, 9, 254]).symm.trans hrec).symm
    rw [hpng, hout]
    rfl
  · obtain ⟨out, hrec, hpng, _⟩ := claim_C2_direct_alpha 1 1 [] [0, 9, 9, 9, 255]
      (by omega) (by omega) (by decide) (by decide) (by decide)
    have hout : out = [9, 9, 9, 255] :=
      Except.ok.inj ((rfl : reconstruct [0, 9, 9, 9, 255] 1 (1 * 4) 4 =
        .ok [9, 9, 9, 255]).symm.trans hrec).symm
    rw [hpng, hout]
    rfl

/-- Claim C3: on a palette (color type 3) asset that decodes successfully,
the result is false when no tRNS chunk is present and otherwise true iff
some tRNS entry is below 255; the result is the same for every valid
pixel stream, so the per-pixel palette indices are never consulted. -/
theorem claim_C3_palette (w h : Nat) (trns : Option Bytes) (idat raw : Bytes)
    (hw : w < 4294967296) (hh : h < 4294967296) (hid : idat.length < 4294967296)
    (htrns : ∀ t, trns = some t → t.length < 4294967296)
    (hlen : raw.length = h * (1 + w * 1))
    (hft : ∀ y, y < h → raw.getD (y * (1 + w * 1)) 0 ≤ 4) :
    png_has_transparency (fun _ => some raw) (mkPng w h 8 3 trns idat) =
      .ok (match trns with
           | none => false
           | some t => t.any (fun a => decide (a < 255))) ∧
    ∀ t, trns = some t →
      (t.any (fun a => decide (a < 255)) = true ↔ ∃ a ∈ t, a < 255) := by
  obtain ⟨out, hrec, _, _⟩ := reconstruct_ok raw h (w * 1) 1 (by omega) (by omega) hft
  constructor
  · rw [png_mkPng _ w h 8 3 trns idat hw hh hid htrns, if_pos rfl,
      afterHeader, if_neg (by omega), if_pos rfl,
      decodePixels_run _ 1 w h 3 trns idat raw out rfl hlen hrec, if_neg (by omega)]
    cases trns <;> rfl
  · intro t _
    simp [List.any_eq_true]

/-- Witness for C3: all-255 table, table containing 0, and no table. -/
theorem claim_C3_palette_witness :
    png_has_transparency (fun _ => some [0, 3]) (mkPng 1 1 8 3 (some [255, 255]) []) =
      .ok false ∧
    png_has_transparency (fun _ => some [0, 3]) (mkPng 1 1 8 3 (some [255, 0]) []) =
      .ok true ∧
    png_has_transparency (fun _ => some [0, 3]) (mkPng 1 1 8 3 none []) = .ok false := by
  refine ⟨?_, ?_, ?_⟩
  · rw [(claim_C3_palette 1 1 (some [255, 255]) [] [0, 3] (by omega) (by omega) (by decide)
      (fun t ht => by cases ht; decide) (by decide) (by decide)).1]
    rfl
  · rw [(claim_C3_palette 1 1 (some [255, 0]) [] [0, 3] (by omega) (by omega) (by decide)
      (fun t ht => by cases ht; decide) (by decide) (by decide)).1]
    rfl
  · rw [(claim_C3_palette 1 1 none [] [0, 3] (by omega) (by omega) (by decide)
      (fun t ht => by cases ht) (by decide) (by decide)).1]

/-- Claim C5: when the decompressed stream's length differs from
height * (1 + row_length) on a decoding color model (type 6 or 3), the
decoder fails with the decompressed-size-mismatch structural error. -/
theorem claim_C5_size_mismatch (w h ct : Nat) (trns : Option Bytes) (idat raw : Bytes)
    (hw : w < 4294967296) (hh : h < 4294967296) (hid : idat.length < 4294967296)
    (htrns : ∀ t, trns = some t → t.length < 4294967296)
    (hct : ct = 6 ∨ ct = 3)
    (hmis : raw.length ≠ h * (1 + w * (if ct = 6 then 4 else 1))) :
    png_has_transparency (fun _ => some raw) (mkPng w h 8 ct trns idat) =
      .error .unexpectedDecompressedSize := by
  rw [png_mkPng _ w h 8 ct trns idat hw hh hid htrns, if_pos rfl]
  rcases hct with h6 | h3
  · subst h6
    rw [afterHeader, if_pos rfl,
      decodePixels_size_mismatch _ 4 w h 6 trns idat raw rfl (by simpa using hmis)]
  · subst h3
    rw [afterHeader, if_neg (by omega), if_pos rfl,
      decodePixels_size_mismatch _ 1 w h 3 trns idat raw rfl (by simpa using hmis)]

/-- Witness for C5: a stream one byte short of height*(1+row_length). -/
theorem claim_C5_size_mismatch_witness :
    png_has_transparency (fun _ => some [0, 9, 9, 9]) (mkPng 1 1 8 6 none []) =
      .error .unexpectedDecompressedSize :=
  claim_C5_size_mismatch 1 1 6 none [] [0, 9, 9, 9] (by omega) (by omega) (by decide)
    (fun t ht => by cases ht) (Or.inl rfl) (by decide)

/-- Claim C8: for color types 0, 2 and 4 the decoder returns false before
ever consulting the compressed stream — the result is `ok false` for every
inflate collaborator (including an always-failing one) and every IDAT
payload. -/
theorem claim_C8_no_alpha_early_false (inflate : Bytes → Option Bytes) (w h ct : Nat)
    (trns : Option Bytes) (idat : Bytes)
    (hw : w < 4294967296) (hh : h < 4294967296) (hid : idat.length < 4294967296)
    (htrns : ∀ t, trns = some t → t.length < 4294967296)
    (hct : ct = 0 ∨ ct = 2 ∨ ct = 4) :
    png_has_transparency inflate (mkPng w h 8 ct trns idat) = .ok false := by
  rw [png_mkPng inflate w h 8 ct trns idat hw hh hid htrns, if_pos rfl, afterHeader,
    if_neg (by rcases hct with hc | hc | hc <;> omega),
    if_neg (by rcases hct with hc | hc | hc <;> omega), if_pos hct]

/-- Witness for C8: a failing inflate and a garbage IDAT raise no error on
a grayscale asset. -/
theorem claim_C8_no_alpha_early_false_witness :
    png_has_transparency (fun _ => none) (mkPng 1 1 8 0 none [1, 2, 3]) = .ok false :=
  claim_C8_no_alpha_early_false (fun _ => none) 1 1 0 none [1, 2, 3]
    (by omega) (by omega) (by decide) (fun t ht => by cases ht) (Or.inl rfl)

/-- Claim C7 as stated is false: there is no four-element set of
recognized color model values such that every u8 value outside it fails
with the unsupported-color-model error — the decoder recognizes the five
values 0, 2, 3, 4 and 6 (none of which produces that error on a small
well-formed asset), and five values cannot fit in a four-element set. -/
theorem claim_C7_counterexample :
    ¬ ∃ S : Finset ℕ, S.card = 4 ∧
      ∀ c : ℕ, c < 256 → c ∉ S →
        png_has_transparency (fun _ => some [0, 0, 0, 0, 0]) (mkPng 1 1 8 c none []) =
          .error (.unsupportedColorType c) := by
  rintro ⟨S, hcard, hall⟩
  have hsub : ({0, 2, 3, 4, 6} : Finset ℕ) ⊆ S := by
    intro c hc
    by_contra hcS
    have hres := hall c (by fin_cases hc <;> omega) hcS
    revert hres
    fin_cases hc <;> decide
  have h5 : (5 : ℕ) ≤ S.card := by
    have hc5 : ({0, 2, 3, 4, 6} : Finset ℕ).card = 5 := by decide
    exact hc5 ▸ Finset.card_le_card hsub
  omega

/-- Claim C7 amended: the closed enumeration has five recognized values —
0, 2, 3, 4 and 6 — and for every color model value outside these five,
decoding fails with the unsupported-color-model error. -/
theorem claim_C7_unsupported_color (inflate : Bytes → Option Bytes) (w h ct : Nat)
    (trns : Option Bytes) (idat : Bytes)
    (hw : w < 4294967296) (hh : h < 4294967296) (hid : idat.length < 4294967296)
    (htrns : ∀ t, trns = some t → t.length < 4294967296)
    (hct : ct ≠ 0 ∧ ct ≠ 2 ∧ ct ≠ 3 ∧ ct ≠ 4 ∧ ct ≠ 6) :
    png_has_transparency inflate (mkPng w h 8 ct trns idat) =
      .error (.unsupportedColorType ct) := by
  obtain ⟨h0, h2, h3, h4, h6⟩ := hct
  rw [png_mkPng inflate w h 8 ct trns idat hw hh hid htrns, if_pos rfl, afterHeader,
    if_neg h6, if_neg h3,
    if_neg (fun hor => hor.elim h0 (fun hor2 => hor2.elim h2 h4))]

/-- Witness for the amended C7 at color model value 7. -/
theorem claim_C7_unsupported_color_witness :
    png_has_transparency (fun _ => none) (mkPng 1 1 8 7 none []) =
      .error (.unsupportedColorType 7) :=
  claim_C7_unsupported_color (fun _ => none) 1 1 7 none [] (by omega) (by omega)
    (by decide) (fun t ht => by cases ht)
    ⟨by omega, by omega, by omega, by omega, by omega⟩

/-- Claim C9 as stated is false: the truncation error raised for a
container cut off inside its IDAT chunk is the generic
invalid-chunk-length message, which names the file path but does not
mention the offending chunk type "IDAT" anywhere. -/
theorem claim_C9_counterexample :
    png_has_transparency (fun _ => none) (PNG_SIGNATURE ++ be32 100 ++ idatTag) =
      .error .truncatedChunkLength ∧
    valueErrorMessage "icon.png" .truncatedChunkLength =
      some "icon.png is truncated (invalid chunk length)" ∧
    containsSub "icon.png is truncated (invalid chunk length)".toList "IDAT".toList =
      false := by
  refine ⟨rfl, rfl, by decide⟩

/-- Claim C9 amended: reading past the end of the buffer is always a
truncation error — invalid-chunk-header when fewer than the 8 header
bytes remain, invalid-chunk-length when the declared payload plus the 4
checksum bytes overrun the buffer — whose message names the file path
(not the offending chunk type), and the error is returned, never a crash
or a silent partial result. -/
theorem claim_C9_truncation (data : Bytes) (i : Nat) (st : ParseState)
    (hi : i < data.length) :
    (data.length < i + 8 → parseFrom data i st = .error .truncatedChunkHeader) ∧
    (i + 8 ≤ data.length → data.length < i + 8 + readBE32 data i + 4 →
      parseFrom data i st = .error .truncatedChunkLength) ∧
    (∀ p : String,
      valueErrorMessage p .truncatedChunkHeader =
        some (p ++ " is truncated (invalid chunk header)") ∧
      valueErrorMessage p .truncatedChunkLength =
        some (p ++ " is truncated (invalid chunk length)")) := by
  refine ⟨?_, ?_, fun p => ⟨rfl, rfl⟩⟩
  · intro h8
    rw [parseFrom]
    simp only [parseLoop]
    rw [if_pos hi, if_pos h8]
  · intro h8 hcrc
    rw [parseFrom]
    simp only [parseLoop]
    rw [if_pos hi, if_neg (by omega), if_pos hcrc]

/-- Witness for the amended C9: a buffer ending right after an IDAT chunk
header that declares 100 payload bytes. -/
theorem claim_C9_truncation_witness :
    parseFrom (PNG_SIGNATURE ++ be32 100 ++ idatTag) 8 initState =
      .error .truncatedChunkLength ∧
    valueErrorMessage "p" .truncatedChunkLength =
      some ("p" ++ " is truncated (invalid chunk length)") := by
  obtain ⟨h1, h2, h3⟩ :=
    claim_C9_truncation (PNG_SIGNATURE ++ be32 100 ++ idatTag) 8 initState (by decide)
  exact ⟨h2 (by decide) (by decide), (h3 "p").2⟩

/-- Claim C10 as stated is false: a present header chunk whose payload has
the wrong size makes decoding fail with the struct-unpack error escaping
from the fixed-layout unpack, not with the missing-header error. -/
theorem claim_C10_counterexample :
    png_has_transparency (fun _ => none)
        (PNG_SIGNATURE ++ mkChunk ihdrTag [1] ++ mkChunk iendTag []) =
      .error .structUnpackError ∧
    PngError.structUnpackError ≠ PngError.missingIHDR := by
  refine ⟨rfl, by decide⟩

/-- Claim C10 amended: when the header chunk is absent from the parsed
chunks the decoder fails with the missing-header error, and when a header
chunk is present but its payload is not exactly the 13-byte fixed layout,
decoding fails with the struct-unpack error instead. -/
theorem claim_C10_missing_header :
    (∀ (data : Bytes) (st : ParseState) (inflate : Bytes → Option Bytes),
      PNG_SIGNATURE.isPrefixOf data = true → parseChunks data = .ok st → st.ihdr = none →
      png_has_transparency inflate data = .error .missingIHDR) ∧
    (∀ (payload rest : Bytes) (inflate : Bytes → Option Bytes),
      payload.length ≠ 13 → payload.length < 4294967296 →
      png_has_transparency inflate (PNG_SIGNATURE ++ mkChunk ihdrTag payload ++ rest) =
        .error .structUnpackError) := by
  constructor
  · intro data st inflate hsig hparse hihdr
    rw [png_has_transparency, if_pos hsig, hparse]
    dsimp only
    rw [hihdr]
  · intro payload rest inflate hne hp
    have hsig : PNG_SIGNATURE.isPrefixOf
        (PNG_SIGNATURE ++ mkChunk ihdrTag payload ++ rest) = true := by
      rw [List.append_assoc]
      exact isPrefixOf_self_append _ _
    have hdrop : (PNG_SIGNATURE ++ mkChunk ihdrTag payload ++ rest).drop 8 =
        mkChunk ihdrTag payload ++ rest := by
      rw [List.append_assoc, List.drop_left' (show PNG_SIGNATURE.length = 8 from rfl)]
    rw [png_has_transparency, if_pos hsig, parseChunks,
      parseFrom_step_ihdr_bad _ 8 payload rest initState hdrop hp hne]

/-- Witness for the amended C10: a container without IHDR, and one with an
empty IHDR payload. -/
theorem claim_C10_missing_header_witness :
    png_has_transparency (fun _ => none) (PNG_SIGNATURE ++ mkChunk iendTag []) =
      .error .missingIHDR ∧
    png_has_transparency (fun _ => none) (PNG_SIGNATURE ++ mkChunk ihdrTag [] ++ []) =
      .error .structUnpackError :=
  ⟨claim_C10_missing_header.1 (PNG_SIGNATURE ++ mkChunk iendTag []) initState _
      (by decide) (by decide) rfl,
    claim_C10_missing_header.2 [] [] _ (by decide) (by decide)⟩

end CheckTransparentIcons
